import Mathlib

/-!
Verification of the GoDis linear-sweep x86 disassembler.

This file is a shallow embedding of the Go sources:
 * `src/disassembler/datatypes` (ModR/M, displacement, immediate and
   hex-string primitives),
 * `src/disassembler/encoders` (the ten operand-encoding kinds),
 * `src/disassembler/operations` (the opcode tables, `GetNext` dispatch
   and `GetExtendedOpcode`),
 * `main` (`Parse_Instructions`, the linear-sweep driver, and the
   legality-comment check of `Print_Instructions`).

Bytes are modelled as `Nat` (the program only ever feeds values < 256),
byte buffers as `List Nat` read from the head; `bytes.Buffer.ReadByte`
takes the head, `UnreadByte` leaves the byte at the head, `Next n` is
`take n` / `drop n` (consuming a short tail on EOF exactly as Go does).
Go maps keyed by byte / int become association lists with
insert-or-replace semantics.  The instrumented sweep additionally carries
a ghost counter `dropped` of consumed-but-unaccounted bytes and a
`crashed` flag marking the nil-pointer panics the Go code would hit;
these do not influence the mirrored state (map / buffer / offset).
-/

namespace GoDis

/-- Lowercase hex rendering of a natural number (Go's `%x` verb body). -/
def hexStr (n : Nat) : String :=
  String.mk (Nat.toDigits 16 n)

/-- Left-pad a string with zeros to the given width (Go's `%0*x` padding). -/
def padZero (w : Nat) (s : String) : String :=
  if s.length < w then String.mk (List.replicate (w - s.length) '0') ++ s else s

/-- Go `fmt.Sprintf "%02x"` on a byte value. -/
def hex2 (n : Nat) : String := padZero 2 (hexStr n)

/-- Go `fmt.Sprintf "%08x"` on a non-negative value. -/
def hex8 (n : Nat) : String := padZero 8 (hexStr n)

/-- Go `fmt.Sprintf "%08x"` on an `int`: for a negative argument Go prints
the sign first and zero-pads the magnitude inside the total width 8. -/
def hex8Int (i : Int) : String :=
  if i < 0 then "-" ++ padZero 7 (hexStr i.natAbs) else hex8 i.toNat

/-- Error values that flow through the Go core: `io.EOF`,
`io.ErrUnexpectedEOF`, the `ONF` sentinel of the operations package, the
`"Bad Address Mode."` error of `ParseDisplacement`, the byte-slice-length
error of `BytesToInt(Signed)`, and the formatted `"db %02x"` errors. -/
inductive GoErr where
  | eof
  | ueof
  | onf
  | badMode
  | badLen
  | db (msg : String)
deriving Repr, DecidableEq

/-- Prefix record (`datatypes.Prefix`). -/
structure PrefixRec where
  Literal : Nat
  Mnemonic : String
deriving Repr, DecidableEq

/-- Parsed ModR/M byte (`datatypes.ModRm`); `Mod`, `Reg`, `RM` are kept as
naturals exactly as extracted by `ParseModRM`. -/
structure ModRm where
  Literal : Nat
  Mod : Nat
  Reg : Nat
  RM : Nat
deriving Repr, DecidableEq

/-- Decoded instruction (`datatypes.Instruction`); field defaults are the
Go zero values used by `&datatypes.Instruction{}`. -/
structure Instruction where
  Literal : List Nat := []
  Offset : Int := 0
  Label : String := ""
  Pre : Option PrefixRec := none
  Mnemonic : String := ""
  Op : Nat := 0
  Modrm : Option ModRm := none
  Displacement : List Nat := []
  Immediate : List Nat := []
  DispSize : Nat := 0
  ImmSize : Nat := 0
  Operands : String := ""
deriving Repr, DecidableEq

/-- Register-name table (`datatypes.Registers`); a Go map lookup at a
missing key yields the zero value `""`. -/
def Registers (r : Nat) : String :=
  match r with
  | 0 => "eax"
  | 1 => "ecx"
  | 2 => "edx"
  | 3 => "ebx"
  | 4 => "esp"
  | 5 => "ebp"
  | 6 => "esi"
  | 7 => "edi"
  | _ => ""

/-- `datatypes.ParseModRM`: split a byte into mod `[7:6]`, reg `[5:3]`,
rm `[2:0]`. -/
def ParseModRM (modrm : Nat) : ModRm :=
  { Literal := modrm
    Mod := (modrm >>> 6) &&& 3
    Reg := (modrm >>> 3) &&& 7
    RM := modrm &&& 7 }

/-- `datatypes.ParseDisplacement`: consume the displacement dictated by the
ModR/M addressing mode (or `size` bytes when no ModR/M is supplied).
Returns (displacement bytes, error, remaining buffer); on a short
`data.Next` read the partial bytes are consumed and returned, as in Go. -/
def ParseDisplacement (modrm : Option ModRm) (data : List Nat) (size : Nat) :
    (List Nat × Option GoErr) × List Nat :=
  match modrm with
  | some mr =>
    if mr.Mod = 0 then
      if mr.RM = 5 then
        let displacement := data.take 4
        if displacement.length ≠ 4 then ((displacement, some .ueof), data.drop 4)
        else ((displacement, none), data.drop 4)
      else (([], none), data)
    else if mr.Mod = 1 then
      match data with
      | [] => (([], some .ueof), [])
      | disp :: rest => (([disp], none), rest)
    else if mr.Mod = 2 then
      let displacement := data.take 4
      if displacement.length ≠ 4 then ((displacement, some .ueof), data.drop 4)
      else ((displacement, none), data.drop 4)
    else if mr.Mod = 3 then (([], none), data)
    else (([], some .badMode), data)
  | none =>
    let displacement := data.take size
    if displacement.length ≠ size then ((displacement, some .ueof), data.drop size)
    else ((displacement, none), data.drop size)

/-- `datatypes.ParseImmediate`: consume exactly `size` bytes;
`UnexpectedEOF` (with the partial bytes consumed) on a short read. -/
def ParseImmediate (data : List Nat) (size : Nat) :
    (List Nat × Option GoErr) × List Nat :=
  let immediate := data.take size
  if immediate.length ≠ size then ((immediate, some .ueof), data.drop size)
  else ((immediate, none), data.drop size)

/-- `datatypes.BytesToInt`: little-endian unsigned value of a 1/2/4-byte
slice; other lengths fail. -/
def BytesToInt (intbytes : List Nat) : Option Nat :=
  match intbytes with
  | [b0] => some b0
  | [b0, b1] => some (b0 + 256 * b1)
  | [b0, b1, b2, b3] => some (b0 + 256 * b1 + 65536 * b2 + 16777216 * b3)
  | _ => none

/-- `datatypes.BytesToIntSigned`: little-endian two's-complement value of a
1/2/4-byte slice; other lengths fail. -/
def BytesToIntSigned (intbytes : List Nat) : Option Int :=
  match intbytes with
  | [b0] =>
    some (if b0 ≥ 128 then (b0 : Int) - 256 else (b0 : Int))
  | [b0, b1] =>
    let v := b0 + 256 * b1
    some (if v ≥ 32768 then (v : Int) - 65536 else (v : Int))
  | [b0, b1, b2, b3] =>
    let v := b0 + 256 * b1 + 65536 * b2 + 16777216 * b3
    some (if v ≥ 2147483648 then (v : Int) - 4294967296 else (v : Int))
  | _ => none

/-- `datatypes.StringifyIntegerBytes`: `0x%08x` of the unsigned value, or
`""` when `BytesToInt` fails. -/
def StringifyIntegerBytes (intbytes : List Nat) : String :=
  match BytesToInt intbytes with
  | none => ""
  | some v => "0x" ++ hex8 v

/-- `datatypes.StringifyRM`: render the rm operand according to the
addressing mode (`""` for a nil ModR/M or an out-of-range mode). -/
def StringifyRM (modrm : Option ModRm) (disp : List Nat) : String :=
  match modrm with
  | some mr =>
    let rm := Registers mr.RM
    if mr.Mod = 0 then
      if mr.RM = 5 then "[ " ++ StringifyIntegerBytes disp ++ " ]"
      else "[ " ++ rm ++ " ]"
    else if mr.Mod = 1 ∨ mr.Mod = 2 then
      "[ " ++ rm ++ "+" ++ StringifyIntegerBytes disp ++ " ]"
    else if mr.Mod = 3 then rm
    else ""
  | none => ""

/-- The ten encoder kinds of the `encoders` package (each Go struct
`M{}`, `MI{}`, ... becomes a constructor). -/
inductive EncKind where
  | M | MI | MR | RM | RMI | NP | O | I | OI | D
deriving Repr, DecidableEq

/-- The `Encoding()` method of each encoder kind. -/
def Encoding : EncKind → String
  | .M => "M"
  | .MI => "MI"
  | .MR => "MR"
  | .RM => "RM"
  | .RMI => "RMI"
  | .NP => "NP"
  | .O => "O"
  | .I => "I"
  | .OI => "OI"
  | .D => "D"

/-- Opcode record (`operations.OpCode`). -/
structure OpCode where
  Literal : Nat
  Mnemonic : String
  Encoder : EncKind
  ModrmReq : Bool := false
  ExtensionReq : Bool := false
  PrefixReq : Bool := false
  Extension : Nat := 0
  DispSize : Nat := 0
  ImmSize : Nat := 0
deriving Repr, DecidableEq

/-- Association-list lookup, mirroring a Go map read (first match). -/
def alookup {κ α : Type} [DecidableEq κ] : List (κ × α) → κ → Option α
  | [], _ => none
  | (k', v) :: t, k => if k' = k then some v else alookup t k

/-- Association-list insert-or-replace, mirroring a Go map write. -/
def ainsert {κ α : Type} [DecidableEq κ] : List (κ × α) → κ → α → List (κ × α)
  | [], k, v => [(k, v)]
  | (k', v') :: t, k, v =>
    if k' = k then (k, v) :: t else (k', v') :: ainsert t k v

/-- The `Vex` prefix record (`0x0F`, empty mnemonic). -/
def Vex : PrefixRec := { Literal := 0x0F, Mnemonic := "" }

/-- The `Repne` prefix record (`0xF2`). -/
def Repne : PrefixRec := { Literal := 0xF2, Mnemonic := "repne" }

/-- The `Prefixes` map: `0x0F ↦ Vex`, `0xF2 ↦ Repne`. -/
def Prefixes (b : Nat) : Option PrefixRec :=
  if b = 0x0F then some Vex else if b = 0xF2 then some Repne else none

/-- The static `allOps` slice of `operations.init`, in source order. -/
def allOps : List OpCode := [
  -- ADD
  { Literal := 0x05, Mnemonic := "add eax,", Encoder := .I, ImmSize := 4 },
  { Literal := 0x81, Mnemonic := "add", Encoder := .MI, ModrmReq := true,
    ExtensionReq := true, Extension := 0, ImmSize := 4 },
  { Literal := 0x01, Mnemonic := "add", Encoder := .MR, ModrmReq := true },
  { Literal := 0x03, Mnemonic := "add", Encoder := .RM, ModrmReq := true },
  -- AND
  { Literal := 0x25, Mnemonic := "and eax,", Encoder := .I, ImmSize := 4 },
  { Literal := 0x81, Mnemonic := "and", Encoder := .MI, ModrmReq := true,
    ExtensionReq := true, Extension := 4, ImmSize := 4 },
  { Literal := 0x21, Mnemonic := "and", Encoder := .MR, ModrmReq := true },
  { Literal := 0x23, Mnemonic := "and", Encoder := .RM, ModrmReq := true },
  -- CALL
  { Literal := 0xE8, Mnemonic := "call", Encoder := .D, DispSize := 4 },
  { Literal := 0xFF, Mnemonic := "call", Encoder := .M, ModrmReq := true,
    ExtensionReq := true, Extension := 2 },
  -- CLFLUSH
  { Literal := 0xAE, Mnemonic := "clflush", Encoder := .M, ModrmReq := true,
    ExtensionReq := true, PrefixReq := true, Extension := 7 },
  -- CMP
  { Literal := 0x3D, Mnemonic := "cmp eax,", Encoder := .I, ImmSize := 4 },
  { Literal := 0x81, Mnemonic := "cmp", Encoder := .MI, ModrmReq := true,
    ExtensionReq := true, Extension := 7, ImmSize := 4 },
  { Literal := 0x39, Mnemonic := "cmp", Encoder := .MR, ModrmReq := true },
  { Literal := 0x3B, Mnemonic := "cmp", Encoder := .RM, ModrmReq := true },
  -- DEC
  { Literal := 0xFF, Mnemonic := "dec", Encoder := .M, ModrmReq := true,
    ExtensionReq := true, Extension := 1 },
  { Literal := 0x48, Mnemonic := "dec", Encoder := .O },
  -- IDIV
  { Literal := 0xF7, Mnemonic := "idiv", Encoder := .M, ModrmReq := true,
    ExtensionReq := true, Extension := 7 },
  -- IMUL
  { Literal := 0xF7, Mnemonic := "imul", Encoder := .M, ModrmReq := true,
    ExtensionReq := true, Extension := 5 },
  { Literal := 0xAF, Mnemonic := "imul", Encoder := .RM, ModrmReq := true,
    PrefixReq := true },
  { Literal := 0x69, Mnemonic := "imul", Encoder := .RMI, ModrmReq := true,
    ImmSize := 4 },
  -- INC
  { Literal := 0xFF, Mnemonic := "inc", Encoder := .M, ModrmReq := true,
    ExtensionReq := true, Extension := 0 },
  { Literal := 0x40, Mnemonic := "inc", Encoder := .O },
  -- JMP
  { Literal := 0xEB, Mnemonic := "jmp", Encoder := .D, DispSize := 1 },
  { Literal := 0xE9, Mnemonic := "jmp", Encoder := .D, DispSize := 4 },
  { Literal := 0xFF, Mnemonic := "jmp", Encoder := .M, ModrmReq := true,
    ExtensionReq := true, Extension := 4 },
  -- JZ
  { Literal := 0x74, Mnemonic := "jz", Encoder := .D, DispSize := 1 },
  { Literal := 0x84, Mnemonic := "jz", Encoder := .D, PrefixReq := true,
    DispSize := 4 },
  -- JNZ
  { Literal := 0x75, Mnemonic := "jnz", Encoder := .D, DispSize := 1 },
  { Literal := 0x85, Mnemonic := "jnz", Encoder := .D, PrefixReq := true,
    DispSize := 4 },
  -- LEA
  { Literal := 0x8D, Mnemonic := "lea", Encoder := .RM, ModrmReq := true },
  -- MOV
  { Literal := 0xB8, Mnemonic := "mov", Encoder := .OI, ImmSize := 4 },
  { Literal := 0xC7, Mnemonic := "mov", Encoder := .MI, ModrmReq := true,
    ExtensionReq := true, Extension := 0, ImmSize := 4 },
  { Literal := 0x89, Mnemonic := "mov", Encoder := .MR, ModrmReq := true },
  { Literal := 0x8B, Mnemonic := "mov", Encoder := .RM, ModrmReq := true },
  -- MOVSD
  { Literal := 0xA5, Mnemonic := "movsd", Encoder := .NP },
  -- MUL
  { Literal := 0xF7, Mnemonic := "mul", Encoder := .M, ModrmReq := true,
    ExtensionReq := true, Extension := 4 },
  -- NEG
  { Literal := 0xF7, Mnemonic := "neg", Encoder := .M, ModrmReq := true,
    ExtensionReq := true, Extension := 3 },
  -- NOP
  { Literal := 0x90, Mnemonic := "nop", Encoder := .NP },
  -- NOT
  { Literal := 0xF7, Mnemonic := "not", Encoder := .M, ModrmReq := true,
    ExtensionReq := true, Extension := 2 },
  -- OR
  { Literal := 0x0D, Mnemonic := "or eax,", Encoder := .I, ImmSize := 4 },
  { Literal := 0x81, Mnemonic := "or", Encoder := .MI, ModrmReq := true,
    ExtensionReq := true, Extension := 1, ImmSize := 4 },
  { Literal := 0x09, Mnemonic := "or", Encoder := .MR, ModrmReq := true },
  { Literal := 0x0B, Mnemonic := "or", Encoder := .RM, ModrmReq := true },
  -- OUT
  { Literal := 0xE7, Mnemonic := "out %s, eax", Encoder := .I, ImmSize := 1 },
  -- POP
  { Literal := 0x8F, Mnemonic := "pop", Encoder := .M, ModrmReq := true,
    ExtensionReq := true, Extension := 0 },
  { Literal := 0x58, Mnemonic := "pop", Encoder := .O },
  -- PUSH
  { Literal := 0xFF, Mnemonic := "push", Encoder := .M, ModrmReq := true,
    ExtensionReq := true, Extension := 6 },
  { Literal := 0x50, Mnemonic := "push", Encoder := .O },
  { Literal := 0x68, Mnemonic := "push", Encoder := .I, ImmSize := 4 },
  -- CMPSD
  { Literal := 0xA7, Mnemonic := "cmpsd", Encoder := .NP },
  -- RETF / RETN
  { Literal := 0xCB, Mnemonic := "retf", Encoder := .NP },
  { Literal := 0xCA, Mnemonic := "retf", Encoder := .I, ImmSize := 2 },
  { Literal := 0xC3, Mnemonic := "retn", Encoder := .NP },
  { Literal := 0xC2, Mnemonic := "retn", Encoder := .I, ImmSize := 2 },
  -- SAL, SAR, SHR
  { Literal := 0xD1, Mnemonic := "sal %s, 1", Encoder := .M, ModrmReq := true,
    ExtensionReq := true, Extension := 4 },
  { Literal := 0xD1, Mnemonic := "sar %s, 1", Encoder := .M, ModrmReq := true,
    ExtensionReq := true, Extension := 7 },
  { Literal := 0xD1, Mnemonic := "shr %s, 1", Encoder := .M, ModrmReq := true,
    ExtensionReq := true, Extension := 5 },
  -- SBB
  { Literal := 0x1D, Mnemonic := "sbb eax,", Encoder := .I, ImmSize := 4 },
  { Literal := 0x81, Mnemonic := "sbb", Encoder := .MI, ModrmReq := true,
    ExtensionReq := true, Extension := 3, ImmSize := 4 },
  { Literal := 0x19, Mnemonic := "sbb", Encoder := .MR, ModrmReq := true },
  { Literal := 0x1B, Mnemonic := "sbb", Encoder := .RM, ModrmReq := true },
  -- SUB
  { Literal := 0x2D, Mnemonic := "sub eax,", Encoder := .I, ImmSize := 4 },
  { Literal := 0x81, Mnemonic := "sub", Encoder := .MI, ModrmReq := true,
    ExtensionReq := true, Extension := 5, ImmSize := 4 },
  { Literal := 0x29, Mnemonic := "sub", Encoder := .MR, ModrmReq := true },
  { Literal := 0x2B, Mnemonic := "sub", Encoder := .RM, ModrmReq := true },
  -- TEST
  { Literal := 0xA9, Mnemonic := "test eax,", Encoder := .I, ImmSize := 4 },
  { Literal := 0xF7, Mnemonic := "test", Encoder := .MI, ModrmReq := true,
    ExtensionReq := true, Extension := 0, ImmSize := 4 },
  { Literal := 0x85, Mnemonic := "test", Encoder := .MR, ModrmReq := true },
  -- XOR
  { Literal := 0x35, Mnemonic := "xor eax,", Encoder := .I, ImmSize := 4 },
  { Literal := 0x81, Mnemonic := "xor", Encoder := .MI, ModrmReq := true,
    ExtensionReq := true, Extension := 6, ImmSize := 4 },
  { Literal := 0x31, Mnemonic := "xor", Encoder := .MR, ModrmReq := true },
  { Literal := 0x33, Mnemonic := "xor", Encoder := .RM, ModrmReq := true }
]

/-- One table entry per opcode table: opcode byte ↦ record. -/
abbrev OpMap := List (Nat × OpCode)

/-- The seven empty extension sub-maps pre-registered in
`operations.init` (`Op81 .. OpD1`). -/
def extInit : List (Nat × OpMap) :=
  [(0x81, []), (0xFF, []), (0xAE, []), (0xF7, []), (0xC7, []), (0x8F, []),
   (0xD1, [])]

/-- Write `op` into `OpCodesExt[lit][ext]`; a literal not pre-registered in
`extInit` is left untouched (in Go that write would panic on a nil map;
every `ExtensionReq` record in `allOps` uses a pre-registered literal). -/
def extWrite (ext : List (Nat × OpMap)) (lit : Nat) (extIdx : Nat)
    (op : OpCode) : List (Nat × OpMap) :=
  ext.map (fun p => if p.1 = lit then (p.1, ainsert p.2 extIdx op) else p)

/-- Install one record into the three tables, following the classification
of the `operations.init` loop: extension table first, then prefixed table,
then the plain table — with the `O`/`OI` run expansion
`for i := int(op.Literal); i < int(op.Literal)+7; i++` (note: this loop
covers the 7 bytes `literal .. literal+6` only). -/
def installOp (tabs : OpMap × List (Nat × OpMap) × OpMap) (op : OpCode) :
    OpMap × List (Nat × OpMap) × OpMap :=
  let (codes, ext, prefixed) := tabs
  if op.ExtensionReq then
    (codes, extWrite ext op.Literal op.Extension op, prefixed)
  else if op.PrefixReq then
    (codes, ext, ainsert prefixed op.Literal op)
  else if Encoding op.Encoder = "O" ∨ Encoding op.Encoder = "OI" then
    ((List.range 7).foldl (fun c i => ainsert c ((op.Literal + i) % 256) op)
      codes, ext, prefixed)
  else
    (ainsert codes op.Literal op, ext, prefixed)

/-- The three tables produced by iterating `allOps` in `operations.init`. -/
def opTables : OpMap × List (Nat × OpMap) × OpMap :=
  allOps.foldl installOp ([], extInit, [])

/-- The plain `OpCodes` table. -/
def OpCodes : OpMap := opTables.1

/-- The `OpCodesExt` table (opcode byte ↦ extension index ↦ record). -/
def OpCodesExt : List (Nat × OpMap) := opTables.2.1

/-- The `OpCodesPrefixed` table. -/
def OpCodesPrefixed : OpMap := opTables.2.2

/-- Result quadruple of `operations.GetNext`
(`*OpCode`, `*datatypes.Prefix`, opcode byte, `error`). -/
structure GNRes where
  op : Option OpCode
  pre : Option PrefixRec
  lit : Nat
  err : Option GoErr
deriving Repr, DecidableEq

/-- `operations.GetExtendedOpcode`: probe the extension table; the
speculatively read ModR/M byte is unread (kept at the buffer head) on both
hit and extension miss.  Returns ((record, error), remaining buffer). -/
def GetExtendedOpcode (opcode : Nat) (data : List Nat) :
    (Option OpCode × Option GoErr) × List Nat :=
  match alookup OpCodesExt opcode with
  | some opcodeMap =>
    match data with
    | [] => ((none, some .ueof), [])
    | modrmByte :: rest =>
      let modrm := ParseModRM modrmByte
      match alookup opcodeMap modrm.Reg with
      | some code => ((some code, none), modrmByte :: rest)
      | none => ((none, some (.db ("db " ++ hex2 opcode))), modrmByte :: rest)
  | none => ((none, some .onf), data)

/-- `operations.GetNext`: classify the next byte (prefix / extension /
prefixed / plain opcode) and resolve the opcode record.  Returns the
result quadruple together with the remaining buffer. -/
def GetNext (data : List Nat) : GNRes × List Nat :=
  match data with
  | [] => (⟨none, none, 0x00, some .eof⟩, [])
  | next :: rest =>
    match Prefixes next with
    | some pre =>
      match rest with
      | [] => (⟨none, some pre, 0x00, some .ueof⟩, [])
      | code :: rest2 =>
        if pre.Literal = 0x0F then  -- case Vex
          match alookup OpCodesPrefixed code with
          | some opcode => (⟨some opcode, some pre, code, none⟩, rest2)
          | none =>
            if code = 0xAE then  -- CLFLUSH is a chimera.
              match GetExtendedOpcode code rest2 with
              | ((op, err), rest3) => (⟨op, some pre, code, err⟩, rest3)
            else
              -- UnreadByte: `code` goes back to the buffer head.
              (⟨none, some pre, 0x00, some (.db ("db " ++ hex2 pre.Literal))⟩,
                code :: rest2)
        else if pre.Literal = 0xF2 then  -- case Repne
          match alookup OpCodes code with
          | some opcode => (⟨some opcode, some pre, code, none⟩, rest2)
          | none => (⟨none, some pre, code, some (.db ("db " ++ hex2 code))⟩,
              rest2)
        else  -- default: unreachable with the fixed prefix table
          (⟨none, some pre, 0x00, some (.db ("db " ++ hex2 pre.Literal))⟩,
            code :: rest2)
    | none =>
      match GetExtendedOpcode next rest with
      | ((op, err), rest2) =>
        if err ≠ some .onf then (⟨op, none, next, err⟩, rest2)
        else
          match alookup OpCodes next with
          | some opcode => (⟨some opcode, none, next, none⟩, rest)
          | none => (⟨none, none, next, some (.db ("db " ++ hex2 next))⟩, rest)

/-- `encoders.M.Encode` (shared verbatim by `MR.Encode` and `RM.Encode`):
read the ModR/M byte, then the displacement its addressing mode dictates,
appending consumed bytes to the literal. -/
def EncodeM (data : List Nat) (inst : Instruction) :
    (Instruction × Option GoErr) × List Nat :=
  match data with
  | [] => ((inst, some .ueof), [])
  | next :: rest =>
    let modrm := ParseModRM next
    let inst1 := { inst with Modrm := some modrm,
                             Literal := inst.Literal ++ [modrm.Literal] }
    match ParseDisplacement (some modrm) rest 0 with
    | ((disp, err), rest2) =>
      (({ inst1 with Displacement := disp,
                     Literal := inst1.Literal ++ disp }, err), rest2)

/-- `encoders.MI.Encode` (shared verbatim by `RMI.Encode`): `M.Encode`
followed by a 4-byte immediate; on an `M` error the immediate is not
consumed (the partially filled instruction is still returned, as the Go
code mutates it in place). -/
def EncodeMI (data : List Nat) (inst : Instruction) :
    (Instruction × Option GoErr) × List Nat :=
  match EncodeM data inst with
  | ((inst1, some err), rest) => ((inst1, some err), rest)
  | ((inst1, none), rest) =>
    match ParseImmediate rest 4 with
    | ((imm, err), rest2) =>
      (({ inst1 with Immediate := imm,
                     Literal := inst1.Literal ++ imm }, err), rest2)

/-- `encoders.I.Encode`: consume `inst.ImmSize` immediate bytes. -/
def EncodeI (data : List Nat) (inst : Instruction) :
    (Instruction × Option GoErr) × List Nat :=
  match ParseImmediate data inst.ImmSize with
  | ((imm, err), rest) =>
    (({ inst with Immediate := imm, Literal := inst.Literal ++ imm }, err),
      rest)

/-- `encoders.OI.Encode`: consume a 4-byte immediate (the register lives in
the opcode byte). -/
def EncodeOI (data : List Nat) (inst : Instruction) :
    (Instruction × Option GoErr) × List Nat :=
  match ParseImmediate data 4 with
  | ((imm, err), rest) =>
    (({ inst with Immediate := imm, Literal := inst.Literal ++ imm }, err),
      rest)

/-- `encoders.D.Encode`: consume a displacement of `inst.DispSize` bytes
(no ModR/M is ever present for `D`-kind records, so the fallback size
applies). -/
def EncodeD (data : List Nat) (inst : Instruction) :
    (Instruction × Option GoErr) × List Nat :=
  match ParseDisplacement inst.Modrm data inst.DispSize with
  | ((disp, err), rest) =>
    (({ inst with Displacement := disp, Literal := inst.Literal ++ disp },
      err), rest)

/-- `OpCode.Encode`: set mnemonic and field widths from the record, then
run the record's encoder (`NP` and `O` consume nothing). -/
def OpEncode (o : OpCode) (data : List Nat) (inst : Instruction) :
    (Instruction × Option GoErr) × List Nat :=
  let inst := { inst with Mnemonic := o.Mnemonic, DispSize := o.DispSize,
                          ImmSize := o.ImmSize }
  match o.Encoder with
  | .M | .MR | .RM => EncodeM data inst
  | .MI | .RMI => EncodeMI data inst
  | .NP | .O => ((inst, none), data)
  | .I => EncodeI data inst
  | .OI => EncodeOI data inst
  | .D => EncodeD data inst

/-- `StringifyOperands` of each encoder kind, returning
(operand string, target offset, is-branch-target, error).  The result is
`none` exactly where the Go code dereferences a nil `inst.Modrm`
(`MR`/`RM`/`RMI` after a ModR/M short read) and would panic. -/
def StringifyOperands (k : EncKind) (inst : Instruction) :
    Option (String × Int × Bool × Option GoErr) :=
  match k with
  | .M => some (StringifyRM inst.Modrm inst.Displacement, 0, false, none)
  | .MI =>
    some (StringifyRM inst.Modrm inst.Displacement ++ ", " ++
      StringifyIntegerBytes inst.Immediate, 0, false, none)
  | .MR =>
    match inst.Modrm with
    | none => none
    | some mr =>
      some (StringifyRM inst.Modrm inst.Displacement ++ ", " ++
        Registers mr.Reg, 0, false, none)
  | .RM =>
    match inst.Modrm with
    | none => none
    | some mr =>
      some (Registers mr.Reg ++ ", " ++
        StringifyRM inst.Modrm inst.Displacement, 0, false, none)
  | .RMI =>
    match inst.Modrm with
    | none => none
    | some mr =>
      some (Registers mr.Reg ++ ", " ++
        StringifyRM inst.Modrm inst.Displacement ++ ", " ++
        StringifyIntegerBytes inst.Immediate, 0, false, none)
  | .NP => some ("", 0, false, none)
  | .O => some (Registers (inst.Op &&& 7), 0, false, none)
  | .I => some (StringifyIntegerBytes inst.Immediate, 0, false, none)
  | .OI =>
    some (Registers (inst.Op &&& 7) ++ ", " ++
      StringifyIntegerBytes inst.Immediate, 0, false, none)
  | .D =>
    let start : Int := inst.Offset + inst.Literal.length
    let (disp, err) : Int × Option GoErr :=
      match BytesToIntSigned inst.Displacement with
      | some v => (v, none)
      | none => (0, some .badLen)
    let stop := start + disp
    some ("offset_" ++ hex8Int stop ++ "h", stop, true, err)

/-- The sweep's instruction map `Instructions : map[int]*Instruction`. -/
abbrev InstrMap := List (Int × Instruction)

/-- Sum of `len(i.Literal)` over the instruction map. -/
def sumLits : InstrMap → Nat
  | [] => 0
  | p :: t => p.2.Literal.length + sumLits t

/-- The label-attachment block of `Parse_Instructions`: fetch (or create,
with only `Offset` set) the Instruction at the branch-target offset,
assign the operand string to its `Label`, and store it back. -/
def attachLabel (m : InstrMap) (target : Int) (ops : String) : InstrMap :=
  let other :=
    match alookup m target with
    | some oi => oi
    | none => { Offset := target }
  ainsert m target { other with Label := ops }

/-- Start of the success path of the sweep: set `Offset`, `Pre`, `Op`, then
append the prefix byte (when present) and the opcode byte to the
literal. -/
def startInst (inst0 : Instruction) (offset : Int) (pre : Option PrefixRec)
    (lit : Nat) : Instruction :=
  let i := { inst0 with Offset := offset, Pre := pre, Op := lit }
  let i :=
    match pre with
    | some p => { i with Literal := i.Literal ++ [p.Literal] }
    | none => i
  { i with Literal := i.Literal ++ [lit] }

/-- Outcome of one iteration of the `Parse_Instructions` loop: either the
loop terminates (`halt`, with `crashed` marking a Go nil-pointer panic
inside the iteration), or it continues with a new buffer / offset / map.
`dropped` is the ghost count of consumed-but-unaccounted bytes. -/
inductive StepRes where
  | halt (m : InstrMap) (rest : List Nat) (dropped : Nat) (crashed : Bool)
  | cont (data : List Nat) (offset : Int) (m : InstrMap) (dropped : Nat)
deriving Repr, DecidableEq

/-- Stringified form of the errors the sweep turns into `db` mnemonics
(`err.Error()` in Go). -/
def errString : GoErr → String
  | .eof => "EOF"
  | .ueof => "unexpected EOF"
  | .onf => "ONF"
  | .badMode => "Bad Address Mode."
  | .badLen => "Invalid byte slice length for integer conversion."
  | .db msg => msg

/-- One iteration of the `Parse_Instructions` loop.  The map, buffer and
offset follow the Go source exactly; `dropped` is ghost instrumentation
recording, on the `db` recovery path, the consumed bytes beyond the single
byte appended to the literal, and, on an `UnexpectedEOF` stop, the bytes
the failed `GetNext` call had already consumed.  The alias branch of the
label attachment reflects that in Go `instruction` and `Instructions[offset]`
are the same object whenever the entry pre-existed, so a label attached at
the current offset lands on the instruction being built. -/
def sweepStep (data : List Nat) (offset : Int) (m : InstrMap)
    (dropped : Nat) : StepRes :=
  let inst0 := (alookup m offset).getD {}
  match GetNext data with
  | (r, rest) =>
    match r.err with
    | some .eof => .halt m rest (dropped + (data.length - rest.length)) false
    | some .ueof => .halt m rest (dropped + (data.length - rest.length)) false
    | some e =>
      -- Handle unknown OpCode: one byte accounted, offset += 1.
      let inst1 := { inst0 with Offset := offset, Mnemonic := errString e,
                                Literal := inst0.Literal ++ [r.lit] }
      .cont rest (offset + 1) (ainsert m offset inst1)
        (dropped + (data.length - rest.length - 1))
    | none =>
      match r.op with
      | none => .halt m rest dropped true  -- nil opcode: Go would panic
      | some opcode =>
        let inst1 := startInst inst0 offset r.pre r.lit
        match OpEncode opcode rest inst1 with
        | ((inst2, _encErr), rest2) =>
          -- encoding errors are printed but non-fatal
          match StringifyOperands opcode.Encoder inst2 with
          | none => .halt m rest2 dropped true  -- nil Modrm: Go panics
          | some (ops, otherOffset, isOffset, _strErr) =>
            let inst3 := { inst2 with Operands := ops }
            if isOffset then
              if otherOffset = offset ∧ (alookup m offset).isSome then
                -- `other_instruction` aliases `instruction` itself
                let inst4 := { inst3 with Label := ops }
                .cont rest2 (offset + inst4.Literal.length)
                  (ainsert (ainsert m otherOffset inst4) offset inst4) dropped
              else
                .cont rest2 (offset + inst3.Literal.length)
                  (ainsert (attachLabel m otherOffset ops) offset inst3)
                  dropped
            else
              .cont rest2 (offset + inst3.Literal.length)
                (ainsert m offset inst3) dropped

/-- Final state of a sweep: instruction map, unread buffer tail, ghost
dropped-byte count, and whether the Go program would have panicked. -/
structure SweepOut where
  map : InstrMap
  rest : List Nat
  dropped : Nat
  crashed : Bool
deriving Repr, DecidableEq

/-- Fuel-indexed sweep loop.  Exhausted fuel stops the sweep with the
state unchanged; `Parse_Instructions` supplies `data.length + 1` fuel,
which is never exhausted since every continuing iteration consumes at
least one buffer byte. -/
def sweepGo : Nat → List Nat → Int → InstrMap → Nat → SweepOut
  | 0, data, _, m, dropped => ⟨m, data, dropped, false⟩
  | fuel + 1, data, offset, m, dropped =>
    match sweepStep data offset m dropped with
    | .halt m' rest dropped' crashed => ⟨m', rest, dropped', crashed⟩
    | .cont data' offset' m' dropped' => sweepGo fuel data' offset' m' dropped'

/-- `Parse_Instructions`: run the sweep from offset 0 on an empty map. -/
def Parse_Instructions (data : List Nat) : SweepOut :=
  sweepGo (data.length + 1) data 0 [] 0

/-- The mnemonic the legality check compares against
(`operations.OpCodesExt[0xAE][7].Mnemonic`); the fallback `""` replaces a
nil-pointer dereference that is unreachable with the installed tables. -/
def clflushTableMnemonic : String :=
  match alookup OpCodesExt 0xAE with
  | some sub =>
    match alookup sub 7 with
    | some op => op.Mnemonic
    | none => ""
  | none => ""

/-- The mnemonic the legality check compares against
(`operations.OpCodes[0x8D].Mnemonic`), with the same unreachable
fallback. -/
def leaTableMnemonic : String :=
  match alookup OpCodes 0x8D with
  | some op => op.Mnemonic
  | none => ""

/-- The illegal-addressing-mode comment computed by `Print_Instructions`:
emitted iff the mnemonic is non-empty, equals the `clflush` or `lea` table
mnemonic, and the (present) ModR/M has mod = `AM_DIRECT` (3).
`inst.Modrm.map Mod = some 3` is the Go conjunction
`Modrm != nil && Modrm.Mod == AM_DIRECT`. -/
def legalityComment (inst : Instruction) : String :=
  if inst.Mnemonic ≠ "" ∧
      (inst.Mnemonic = clflushTableMnemonic ∨
        inst.Mnemonic = leaTableMnemonic) ∧
      inst.Modrm.map (·.Mod) = some 3 then
    "; Illegal addressing mode."
  else ""

/-- Literal length carried by an optional map entry (an accounting measure
used by the round-trip theorems). -/
def litLen (o : Option Instruction) : Nat :=
  match o with
  | some i => i.Literal.length
  | none => 0

/-- Modelled from the spec: the displacement byte count each addressing
mode requires (`Reg` with rm=5 → 4, `Reg` otherwise → 0, `Byte` → 1,
`Dword` → 4, `Direct` → 0; `fallback_size` when no ModR/M is supplied).
This is the spec-side reading against which `ParseDisplacement` is
checked. -/
def dispNeeded : Option ModRm → Nat → Nat
  | some mr, _ =>
    if mr.Mod = 0 then (if mr.RM = 5 then 4 else 0)
    else if mr.Mod = 1 then 1
    else if mr.Mod = 2 then 4
    else 0
  | none, sz => sz

/-! ### Association-map lemmas -/

theorem alookup_ainsert_self {κ α : Type} [DecidableEq κ]
    (m : List (κ × α)) (k : κ) (v : α) :
    alookup (ainsert m k v) k = some v := by
  induction m with
  | nil => simp [ainsert, alookup]
  | cons p t ih =>
    obtain ⟨k', v'⟩ := p
    by_cases h : k' = k
    · subst h; simp [ainsert, alookup]
    · simp [ainsert, alookup, h, ih]

theorem alookup_ainsert_ne {κ α : Type} [DecidableEq κ]
    (m : List (κ × α)) (k k' : κ) (v : α) (h : k' ≠ k) :
    alookup (ainsert m k v) k' = alookup m k' := by
  have hne : ¬ k = k' := fun hh => h hh.symm
  induction m with
  | nil => simp [ainsert, alookup, hne]
  | cons p t ih =>
    obtain ⟨k0, v0⟩ := p
    by_cases h0 : k0 = k
    · subst h0
      simp [ainsert, alookup, hne]
    · by_cases h1 : k0 = k'
      · subst h1; simp [ainsert, alookup, h0]
      · simp [ainsert, alookup, h0, h1, ih]

theorem sumLits_ainsert (m : InstrMap) (k : Int) (v : Instruction) :
    sumLits (ainsert m k v) + litLen (alookup m k) =
      sumLits m + v.Literal.length := by
  induction m with
  | nil => simp [ainsert, sumLits, alookup, litLen]
  | cons p t ih =>
    obtain ⟨k0, v0⟩ := p
    by_cases h : k0 = k
    · subst h
      simp [ainsert, alookup, litLen, sumLits]
      omega
    · simp only [ainsert, if_neg h, sumLits, alookup]
      omega

theorem litLen_getD (o : Option Instruction) :
    (o.getD {}).Literal.length = litLen o := by
  cases o <;> simp [litLen, Instruction.Literal]

theorem alookup_attachLabel_self (m : InstrMap) (t : Int) (s : String) :
    (alookup (attachLabel m t s) t).map (·.Label) = some s := by
  unfold attachLabel
  cases h : alookup m t <;> simp [h, alookup_ainsert_self]

theorem alookup_attachLabel_ne (m : InstrMap) (t k : Int) (s : String)
    (h : k ≠ t) :
    alookup (attachLabel m t s) k = alookup m k := by
  unfold attachLabel
  cases h' : alookup m t <;> simp [h', alookup_ainsert_ne _ _ _ _ h]

theorem litLen_attachLabel (m : InstrMap) (t k : Int) (s : String) :
    litLen (alookup (attachLabel m t s) k) = litLen (alookup m k) := by
  by_cases hk : k = t
  · subst hk
    unfold attachLabel
    cases h : alookup m k <;>
      simp [h, alookup_ainsert_self, litLen, Instruction.Literal]
  · rw [alookup_attachLabel_ne _ _ _ _ hk]

theorem sumLits_attachLabel (m : InstrMap) (t : Int) (s : String) :
    sumLits (attachLabel m t s) = sumLits m := by
  unfold attachLabel
  cases h : alookup m t with
  | none =>
    have := sumLits_ainsert m t { Offset := t, Label := s }
    simp [h, litLen] at this
    simpa [h] using this
  | some oi =>
    have := sumLits_ainsert m t { oi with Label := s }
    simp [h, litLen] at this
    simpa [h] using this

/-! ### Consumption lemmas for the primitive parsers and encoders -/

theorem fst_fst_ite {α β γ : Type} {c : Prop} [Decidable c] (x : α)
    (e1 e2 : β) (y : γ) :
    (if c then ((x, e1), y) else ((x, e2), y)).1.1 = x := by
  split <;> rfl

theorem snd_ite {α β γ : Type} {c : Prop} [Decidable c] (x : α)
    (e1 e2 : β) (y : γ) :
    (if c then ((x, e1), y) else ((x, e2), y)).2 = y := by
  split <;> rfl

theorem take_drop_sum_len (data : List Nat) (n : Nat) :
    (data.take n).length + (data.drop n).length = data.length := by
  simp [List.length_take, List.length_drop]
  omega

theorem ParseDisplacement_len (mm : Option ModRm) (data : List Nat)
    (sz : Nat) :
    (ParseDisplacement mm data sz).1.1.length +
      (ParseDisplacement mm data sz).2.length = data.length := by
  rcases mm with _ | mr
  · simp [ParseDisplacement, fst_fst_ite, snd_ite, take_drop_sum_len]
    omega
  · simp only [ParseDisplacement]
    by_cases h0 : mr.Mod = 0
    · by_cases h5 : mr.RM = 5
      · simp [h0, h5, fst_fst_ite, snd_ite, take_drop_sum_len]
        omega
      · simp [h0, h5]
    · by_cases h1 : mr.Mod = 1
      · simp only [h0, h1, reduceIte]
        cases data <;> simp <;> omega
      · by_cases h2 : mr.Mod = 2
        · simp [h0, h1, h2, fst_fst_ite, snd_ite, take_drop_sum_len]
          omega
        · by_cases h3 : mr.Mod = 3
          · simp [h0, h1, h2, h3]
          · simp [h0, h1, h2, h3]

theorem ParseImmediate_len (data : List Nat) (sz : Nat) :
    (ParseImmediate data sz).1.1.length +
      (ParseImmediate data sz).2.length = data.length := by
  simp [ParseImmediate, fst_fst_ite, snd_ite, take_drop_sum_len]
  omega

theorem EncodeM_len (data : List Nat) (inst : Instruction) :
    (EncodeM data inst).1.1.Literal.length + (EncodeM data inst).2.length =
      inst.Literal.length + data.length := by
  unfold EncodeM
  cases data with
  | nil => simp
  | cons next rest =>
    have h := ParseDisplacement_len (some (ParseModRM next)) rest 0
    cases hpd : ParseDisplacement (some (ParseModRM next)) rest 0 with
    | mk p r =>
      obtain ⟨d, e⟩ := p
      rw [hpd] at h
      simp only [hpd]
      simp at h ⊢
      omega

theorem EncodeMI_len (data : List Nat) (inst : Instruction) :
    (EncodeMI data inst).1.1.Literal.length + (EncodeMI data inst).2.length =
      inst.Literal.length + data.length := by
  unfold EncodeMI
  have h := EncodeM_len data inst
  cases hm : EncodeM data inst with
  | mk p r =>
    obtain ⟨i1, e1⟩ := p
    rw [hm] at h
    cases e1 with
    | some err => simpa [hm] using h
    | none =>
      have h2 := ParseImmediate_len r 4
      cases hpi : ParseImmediate r 4 with
      | mk q r2 =>
        obtain ⟨imm, e2⟩ := q
        rw [hpi] at h2
        simp only [hm, hpi]
        simp at h h2 ⊢
        omega

theorem EncodeI_len (data : List Nat) (inst : Instruction) :
    (EncodeI data inst).1.1.Literal.length + (EncodeI data inst).2.length =
      inst.Literal.length + data.length := by
  unfold EncodeI
  have h := ParseImmediate_len data inst.ImmSize
  cases hpi : ParseImmediate data inst.ImmSize with
  | mk q r =>
    obtain ⟨imm, e⟩ := q
    rw [hpi] at h
    simp only [hpi]
    simp at h ⊢
    omega

theorem EncodeOI_len (data : List Nat) (inst : Instruction) :
    (EncodeOI data inst).1.1.Literal.length + (EncodeOI data inst).2.length =
      inst.Literal.length + data.length := by
  unfold EncodeOI
  have h := ParseImmediate_len data 4
  cases hpi : ParseImmediate data 4 with
  | mk q r =>
    obtain ⟨imm, e⟩ := q
    rw [hpi] at h
    simp only [hpi]
    simp at h ⊢
    omega

theorem EncodeD_len (data : List Nat) (inst : Instruction) :
    (EncodeD data inst).1.1.Literal.length + (EncodeD data inst).2.length =
      inst.Literal.length + data.length := by
  unfold EncodeD
  have h := ParseDisplacement_len inst.Modrm data inst.DispSize
  cases hpd : ParseDisplacement inst.Modrm data inst.DispSize with
  | mk p r =>
    obtain ⟨d, e⟩ := p
    rw [hpd] at h
    simp only [hpd]
    simp at h ⊢
    omega

theorem OpEncode_len (o : OpCode) (data : List Nat) (inst : Instruction) :
    (OpEncode o data inst).1.1.Literal.length +
      (OpEncode o data inst).2.length =
      inst.Literal.length + data.length := by
  unfold OpEncode
  cases o.Encoder <;>
    simp [EncodeM_len, EncodeMI_len, EncodeI_len, EncodeOI_len, EncodeD_len]

theorem startInst_len (inst0 : Instruction) (offset : Int)
    (pre : Option PrefixRec) (lit : Nat) :
    (startInst inst0 offset pre lit).Literal.length =
      inst0.Literal.length + (if pre.isSome then 2 else 1) := by
  unfold startInst
  cases pre <;> simp

/-! ### Offset-preservation lemmas used for the branch-target claims -/

theorem EncodeM_Offset (data : List Nat) (inst : Instruction) :
    (EncodeM data inst).1.1.Offset = inst.Offset := by
  unfold EncodeM
  cases data with
  | nil => rfl
  | cons next rest => simp only []

theorem EncodeMI_Offset (data : List Nat) (inst : Instruction) :
    (EncodeMI data inst).1.1.Offset = inst.Offset := by
  have hm := EncodeM_Offset data inst
  unfold EncodeMI
  rcases hem : EncodeM data inst with ⟨⟨i1, e1⟩, r⟩
  rw [hem] at hm
  cases e1 with
  | some err => simpa using hm
  | none =>
    rcases hpi : ParseImmediate r 4 with ⟨⟨imm, e2⟩, r2⟩
    simpa using hm

theorem EncodeI_Offset (data : List Nat) (inst : Instruction) :
    (EncodeI data inst).1.1.Offset = inst.Offset := by
  unfold EncodeI
  rcases hpi : ParseImmediate data inst.ImmSize with ⟨⟨imm, e⟩, r⟩
  rfl

theorem EncodeOI_Offset (data : List Nat) (inst : Instruction) :
    (EncodeOI data inst).1.1.Offset = inst.Offset := by
  unfold EncodeOI
  rcases hpi : ParseImmediate data 4 with ⟨⟨imm, e⟩, r⟩
  rfl

theorem EncodeD_Offset (data : List Nat) (inst : Instruction) :
    (EncodeD data inst).1.1.Offset = inst.Offset := by
  unfold EncodeD
  rcases hpd : ParseDisplacement inst.Modrm data inst.DispSize with ⟨⟨d, e⟩, r⟩
  rfl

theorem OpEncode_Offset (o : OpCode) (data : List Nat) (inst : Instruction) :
    (OpEncode o data inst).1.1.Offset = inst.Offset := by
  unfold OpEncode
  cases o.Encoder <;>
    simp [EncodeM_Offset, EncodeMI_Offset, EncodeI_Offset, EncodeOI_Offset,
      EncodeD_Offset]

/-! ### GetNext consumption characterization -/

theorem GetExtendedOpcode_rest (b : Nat) (data : List Nat) :
    (GetExtendedOpcode b data).2 = data := by
  unfold GetExtendedOpcode
  cases alookup OpCodesExt b with
  | none => rfl
  | some sub =>
    cases data with
    | nil => rfl
    | cons mb rest =>
      simp only []
      cases alookup sub (ParseModRM mb).Reg <;> rfl

theorem GetExtendedOpcode_err (b : Nat) (data : List Nat) :
    (GetExtendedOpcode b data).1.2 = some .onf ∨
    ((GetExtendedOpcode b data).1.2 = some .ueof ∧ data = []) ∨
    ((GetExtendedOpcode b data).1.2 = none ∧
      (GetExtendedOpcode b data).1.1.isSome) ∨
    (∃ s, (GetExtendedOpcode b data).1.2 = some (.db s)) := by
  unfold GetExtendedOpcode
  cases alookup OpCodesExt b with
  | none => left; rfl
  | some sub =>
    cases data with
    | nil => right; left; exact ⟨rfl, rfl⟩
    | cons mb rest =>
      simp only []
      cases alookup sub (ParseModRM mb).Reg with
      | none => right; right; right; exact ⟨_, rfl⟩
      | some code => right; right; left; exact ⟨rfl, rfl⟩

theorem GetExtendedOpcode_ae_not_onf (data : List Nat) :
    (GetExtendedOpcode 0xAE data).1.2 ≠ some .onf := by
  have h : (alookup OpCodesExt 0xAE).isSome := by decide
  unfold GetExtendedOpcode
  cases hx : alookup OpCodesExt 0xAE with
  | none => rw [hx] at h; cases h
  | some sub =>
    cases data with
    | nil => simp
    | cons mb r =>
      simp only []
      cases alookup sub (ParseModRM mb).Reg <;> simp

/-- Case characterization of a `GetNext` call: a clean `EOF` leaves the
buffer untouched; an `UnexpectedEOF` never lengthens it; a `db` error
consumes at least one byte net; and a successful dispatch returns a record
and consumes exactly the prefix byte (when a prefix is reported) plus the
opcode byte. -/
theorem GetNext_cases (data : List Nat) :
    ((GetNext data).1.err = some .eof ∧ (GetNext data).2 = data) ∨
    ((GetNext data).1.err = some .ueof ∧
      (GetNext data).2.length ≤ data.length) ∨
    ((∃ s, (GetNext data).1.err = some (.db s)) ∧
      (GetNext data).2.length + 1 ≤ data.length) ∨
    ((GetNext data).1.err = none ∧ (GetNext data).1.op.isSome ∧
      data.length = (GetNext data).2.length +
        (if (GetNext data).1.pre.isSome then 2 else 1)) := by
  unfold GetNext
  cases data with
  | nil => left; exact ⟨rfl, rfl⟩
  | cons next rest =>
    simp only []
    cases hpre : Prefixes next with
    | some pre =>
      cases rest with
      | nil => right; left; simp
      | cons code rest2 =>
        simp only []
        by_cases hvex : pre.Literal = 0x0F
        · simp only [hvex, reduceIte]
          cases hl : alookup OpCodesPrefixed code with
          | some opcode => right; right; right; simp
          | none =>
            simp only []
            by_cases hae : code = 0xAE
            · subst hae
              simp only [reduceIte]
              have hrest := GetExtendedOpcode_rest 0xAE rest2
              have hno := GetExtendedOpcode_ae_not_onf rest2
              rcases GetExtendedOpcode_err 0xAE rest2 with
                honf | ⟨he, hnil⟩ | ⟨he, hop⟩ | ⟨s, hs⟩
              · exact absurd honf hno
              · subst hnil
                right; left
                refine ⟨by simpa using he, ?_⟩
                simp [hrest]
              · right; right; right
                refine ⟨by simpa using he, by simpa using hop, ?_⟩
                simp [hrest]
              · right; right; left
                refine ⟨⟨s, by simpa using hs⟩, ?_⟩
                simp [hrest]
            · simp only [hae, reduceIte]
              right; right; left
              exact ⟨⟨_, rfl⟩, by simp⟩
        · by_cases hrep : pre.Literal = 0xF2
          · simp only [hvex, hrep, reduceIte]
            cases hl : alookup OpCodes code with
            | some opcode => right; right; right; simp
            | none =>
              right; right; left
              exact ⟨⟨_, rfl⟩, by simp⟩
          · simp only [hvex, hrep, reduceIte]
            right; right; left
            exact ⟨⟨_, rfl⟩, by simp⟩
    | none =>
      simp only []
      have hrest := GetExtendedOpcode_rest next rest
      rcases GetExtendedOpcode_err next rest with
        honf | ⟨he, hnil⟩ | ⟨he, hop⟩ | ⟨s, hs⟩
      · simp only [honf, reduceIte]
        cases hl : alookup OpCodes next with
        | some opcode => right; right; right; simp
        | none =>
          right; right; left
          exact ⟨⟨_, rfl⟩, by simp⟩
      · subst hnil
        simp only [he, reduceIte]
        right; left
        refine ⟨rfl, ?_⟩
        simp [hrest]
      · simp only [he, reduceIte]
        right; right; right
        refine ⟨rfl, by simpa using hop, ?_⟩
        simp [hrest]
      · simp only [hs, reduceIte]
        right; right; left
        refine ⟨⟨s, rfl⟩, ?_⟩
        simp [hrest]

theorem store_acct (m : InstrMap) (offset : Int) (v : Instruction)
    (r d dr : Nat)
    (hv : v.Literal.length + r = litLen (alookup m offset) + d) :
    sumLits (ainsert m offset v) + r + dr = sumLits m + d + dr := by
  have := sumLits_ainsert m offset v
  omega

theorem db_store_acct (m : InstrMap) (offset : Int) (v : Instruction)
    (r d dr : Nat)
    (hv : v.Literal.length = litLen (alookup m offset) + 1)
    (hlen : r + 1 ≤ d) :
    sumLits (ainsert m offset v) + r + (dr + (d - r - 1)) =
      sumLits m + d + dr := by
  have := sumLits_ainsert m offset v
  omega

theorem attach_store_acct (m : InstrMap) (oo : Int) (ops : String)
    (offset : Int) (v : Instruction) (r d dr : Nat)
    (hv : v.Literal.length + r = litLen (alookup m offset) + d) :
    sumLits (ainsert (attachLabel m oo ops) offset v) + r + dr =
      sumLits m + d + dr := by
  have h1 := sumLits_ainsert (attachLabel m oo ops) offset v
  rw [litLen_attachLabel] at h1
  have h2 := sumLits_attachLabel m oo ops
  omega

theorem alias_store_acct (m : InstrMap) (k : Int) (v : Instruction)
    (r d dr : Nat)
    (hv : v.Literal.length + r = litLen (alookup m k) + d) :
    sumLits (ainsert (ainsert m k v) k v) + r + dr = sumLits m + d + dr := by
  have h1 := sumLits_ainsert m k v
  have h2 := sumLits_ainsert (ainsert m k v) k v
  rw [alookup_ainsert_self] at h2
  simp only [litLen] at h2
  omega

/-- Per-iteration byte accounting: a halting iteration leaves the map
untouched (unless it crashed), and a continuing iteration preserves
`sumLits + buffer length + dropped`. -/
theorem sweepStep_acct (data : List Nat) (offset : Int) (m : InstrMap)
    (dr : Nat) :
    match sweepStep data offset m dr with
    | .halt m' rest dr' crashed =>
        crashed = true ∨
          (m' = m ∧
            sumLits m' + rest.length + dr' = sumLits m + data.length + dr)
    | .cont data' _ m' dr' =>
        sumLits m' + data'.length + dr' = sumLits m + data.length + dr := by
  have hL := litLen_getD (alookup m offset)
  unfold sweepStep
  rcases GetNext_cases data with
    ⟨he, hr⟩ | ⟨he, hlen⟩ | ⟨⟨s, hs⟩, hlen⟩ | ⟨he, hop, hlen⟩
  · simp only [he]
    exact Or.inr ⟨by trivial, by rw [hr]; omega⟩
  · simp only [he]
    exact Or.inr ⟨by trivial, by omega⟩
  · simp only [hs]
    apply db_store_acct
    · simp
      omega
    · exact hlen
  · simp only [he]
    obtain ⟨opcode, hopc⟩ := Option.isSome_iff_exists.mp hop
    simp only [hopc]
    have hsl := startInst_len ((alookup m offset).getD {}) offset
      (GetNext data).1.pre (GetNext data).1.lit
    have hoel := OpEncode_len opcode (GetNext data).2
      (startInst ((alookup m offset).getD {}) offset (GetNext data).1.pre
        (GetNext data).1.lit)
    rcases hOE : OpEncode opcode (GetNext data).2
        (startInst ((alookup m offset).getD {}) offset (GetNext data).1.pre
          (GetNext data).1.lit) with ⟨⟨inst2, e2⟩, rest2⟩
    simp only [hOE] at hoel ⊢
    cases hso : StringifyOperands opcode.Encoder inst2 with
    | none =>
      simp only [hso]
      exact Or.inl trivial
    | some q =>
      obtain ⟨ops, oo, isOff, serr⟩ := q
      simp only [hso]
      cases isOff with
      | false =>
        simp only [Bool.false_eq_true, reduceIte]
        apply store_acct
        show inst2.Literal.length + rest2.length =
          litLen (alookup m offset) + data.length
        cases hps : (GetNext data).1.pre.isSome <;>
          simp only [hps, Bool.false_eq_true, reduceIte] at hsl hlen <;>
          omega
      | true =>
        simp only [reduceIte]
        by_cases hc : oo = offset ∧ (alookup m offset).isSome
        · rw [if_pos hc]
          obtain ⟨hoo, _⟩ := hc
          subst hoo
          apply alias_store_acct
          show inst2.Literal.length + rest2.length =
            litLen (alookup m oo) + data.length
          cases hps : (GetNext data).1.pre.isSome <;>
            simp only [hps, Bool.false_eq_true, reduceIte] at hsl hlen <;>
            omega
        · rw [if_neg hc]
          apply attach_store_acct
          show inst2.Literal.length + rest2.length =
            litLen (alookup m offset) + data.length
          cases hps : (GetNext data).1.pre.isSome <;>
            simp only [hps, Bool.false_eq_true, reduceIte] at hsl hlen <;>
            omega

theorem sweepGo_acct (fuel : Nat) : ∀ (data : List Nat) (offset : Int)
    (m : InstrMap) (dr : Nat),
    (sweepGo fuel data offset m dr).crashed = false →
    sumLits (sweepGo fuel data offset m dr).map +
      (sweepGo fuel data offset m dr).rest.length +
      (sweepGo fuel data offset m dr).dropped =
      sumLits m + data.length + dr := by
  induction fuel with
  | zero =>
    intro data offset m dr _
    simp [sweepGo]
  | succ fuel ih =>
    intro data offset m dr h
    have hstep := sweepStep_acct data offset m dr
    cases hs : sweepStep data offset m dr with
    | halt m' rest dr' crashed =>
      rw [hs] at hstep
      simp only [sweepGo, hs] at h ⊢
      rcases hstep with hc | ⟨_, heq⟩
      · rw [h] at hc; cases hc
      · exact heq
    | cont data' offset' m' dr' =>
      rw [hs] at hstep
      simp only [sweepGo, hs] at h ⊢
      have hrec := ih data' offset' m' dr' h
      omega

theorem startInst_Offset (inst0 : Instruction) (offset : Int)
    (pre : Option PrefixRec) (lit : Nat) :
    (startInst inst0 offset pre lit).Offset = offset := by
  unfold startInst
  cases pre <;> rfl

/-! ### Claim theorems -/

/-- C1: the claim says every `O`/`OI` base literal `B` is installed under
all 8 bytes `B..B+7`; the install loop `for i := int(op.Literal);
i < int(op.Literal)+7; i++` actually covers only the seven bytes
`B..B+6`, so the eighth byte of each register-in-opcode run (0x47, 0x4F,
0x57, 0x5F, 0xBF) is absent from the plain table, while `B..B+6` carry
the run's record and stringify the register `byte & 7`. -/
theorem C1_o_oi_run_gap :
    alookup OpCodes 0x47 = none ∧ alookup OpCodes 0x4F = none ∧
    alookup OpCodes 0x57 = none ∧ alookup OpCodes 0x5F = none ∧
    alookup OpCodes 0xBF = none ∧
    (alookup OpCodes 0x40).map (·.Mnemonic) = some "inc" ∧
    (alookup OpCodes 0x46).map (·.Mnemonic) = some "inc" ∧
    (alookup OpCodes 0xB8).map (·.Mnemonic) = some "mov" ∧
    (alookup OpCodes 0xBE).map (·.Mnemonic) = some "mov" ∧
    StringifyOperands .O { Op := 0x46 } = some ("esi", 0, false, none) ∧
    StringifyOperands .OI { Op := 0xBE, Immediate := [1, 0, 0, 0] } =
      some ("esi, 0x00000001", 0, false, none) := by decide

/-- C2 (counterexample): on the repne-miss input `F2 06` the sweep consumes
both bytes but stores only the one-byte literal `[06]` and leaves nothing
unread, so `sum(len literal) + leftover = 1 ≠ 2 = len(input)`. -/
theorem C2_repne_miss_counterexample :
    sumLits (Parse_Instructions [0xF2, 0x06]).map +
      (Parse_Instructions [0xF2, 0x06]).rest.length ≠
      ([0xF2, 0x06] : List Nat).length := by decide

/-- C2 (amended): for every input on which the sweep does not hit a Go
nil-pointer panic, `sum(len literal) + leftover + dropped = len(input)`,
where `dropped` counts one byte for each db recovery that consumed a
prefix byte it did not record (repne-miss and 0F-AE-extension-miss) plus
the bytes consumed by the final `GetNext` call when the sweep stops on
`UnexpectedEOF`. -/
theorem C2_roundtrip_amended (data : List Nat)
    (h : (Parse_Instructions data).crashed = false) :
    sumLits (Parse_Instructions data).map +
      (Parse_Instructions data).rest.length +
      (Parse_Instructions data).dropped = data.length := by
  have h' : (sweepGo (data.length + 1) data 0 [] 0).crashed = false := h
  have := sweepGo_acct (data.length + 1) data 0 [] 0 h'
  simpa [Parse_Instructions, sumLits] using this

/-- C2 (witness): the amended round-trip at the concrete input `[90]`. -/
theorem C2_roundtrip_amended_witness :
    (Parse_Instructions [0x90]).crashed = false ∧
    sumLits (Parse_Instructions [0x90]).map +
      (Parse_Instructions [0x90]).rest.length +
      (Parse_Instructions [0x90]).dropped = ([0x90] : List Nat).length :=
  ⟨by decide, C2_roundtrip_amended [0x90] (by decide)⟩

/-- C3: the claim says a plain `0xAE` (no `0x0F` prefix) never resolves to
the clflush record; in fact the non-prefixed extension path of `GetNext`
returns the clflush record (whose own `PrefixReq` flag is `true`) with no
prefix on input `AE F8` (ModR/M reg = 7). -/
theorem C3_plain_ae_resolves_clflush :
    ((GetNext [0xAE, 0xF8]).1.op).map (·.Mnemonic) = some "clflush" ∧
    ((GetNext [0xAE, 0xF8]).1.op).map (·.PrefixReq) = some true ∧
    (GetNext [0xAE, 0xF8]).1.pre = none ∧
    (GetNext [0xAE, 0xF8]).1.err = none := by decide

/-- C4 (counterexample): on input `[05]` (add eax, imm32 with no immediate
bytes left) the operand encoder hits `UnexpectedEOF`, yet the partial
instruction (literal `[05]`, `ImmSize` 4 but an empty immediate) is stored
in the final map, contradicting the claim that a decode that ran out of
bytes mid-instruction is never stored. -/
theorem C4_encoder_eof_stored_counterexample :
    (alookup (Parse_Instructions [0x05]).map 0).map (·.Literal) =
      some [0x05] ∧
    (alookup (Parse_Instructions [0x05]).map 0).map (·.ImmSize) = some 4 ∧
    (alookup (Parse_Instructions [0x05]).map 0).map (·.Immediate) =
      some [] ∧
    (Parse_Instructions [0x05]).rest = [] := by decide

/-- C4 (amended): when `GetNext` itself reports `UnexpectedEOF` (a prefix
or an extension probe hitting the end of the buffer), the sweep iteration
halts with the instruction map unchanged — no partial instruction is
stored.  (When the buffer instead runs out inside operand consumption
after a successful dispatch, the partial instruction is stored; see the
counterexample.) -/
theorem C4_getnext_ueof_no_store (data : List Nat) (offset : Int)
    (m : InstrMap) (dr : Nat)
    (h : (GetNext data).1.err = some .ueof) :
    sweepStep data offset m dr =
      .halt m (GetNext data).2
        (dr + (data.length - (GetNext data).2.length)) false := by
  unfold sweepStep
  simp only [h]

/-- C4 (witness): the amended statement at the lone-prefix input `[F2]`. -/
theorem C4_getnext_ueof_no_store_witness :
    (GetNext [0xF2]).1.err = some .ueof ∧
    sweepStep [0xF2] 0 [] 0 =
      .halt [] (GetNext [0xF2]).2
        (0 + (([0xF2] : List Nat).length - (GetNext [0xF2]).2.length))
        false :=
  ⟨by decide, C4_getnext_ueof_no_store [0xF2] 0 [] 0 (by decide)⟩

/-- C9: the emitter's legality comment `"; Illegal addressing mode."`
appears iff the instruction's mnemonic equals `clflush` or `lea` (the
mnemonics the source reads back from `OpCodesExt[0xAE][7]` and
`OpCodes[0x8D]`) and its ModR/M is present with mod = Direct (3); every
other instruction gets the empty comment. -/
theorem C9_legality_comment_iff (inst : Instruction) :
    (legalityComment inst = "; Illegal addressing mode." ↔
      ((inst.Mnemonic = "clflush" ∨ inst.Mnemonic = "lea") ∧
        inst.Modrm.map (·.Mod) = some 3)) ∧
    (legalityComment inst = "; Illegal addressing mode." ∨
      legalityComment inst = "") := by
  have hc : clflushTableMnemonic = "clflush" := by decide
  have hl : leaTableMnemonic = "lea" := by decide
  unfold legalityComment
  rw [hc, hl]
  split
  · rename_i hcond
    exact ⟨⟨fun _ => ⟨hcond.2.1, hcond.2.2⟩, fun _ => rfl⟩, Or.inl rfl⟩
  · rename_i hcond
    constructor
    · constructor
      · intro h
        exact absurd h (by decide)
      · rintro ⟨hm, hmod⟩
        exfalso
        apply hcond
        refine ⟨?_, hm, hmod⟩
        rcases hm with h | h <;> rw [h] <;> decide
    · exact Or.inr rfl

/-- C10: label attachment assigns rather than accumulates — after two
attachments at the same target offset, the stored label is exactly the
second operand string (each single attachment stores exactly the string it
was given). -/
theorem C10_label_assign_replaces (m : InstrMap) (t : Int)
    (s1 s2 : String) :
    (alookup (attachLabel m t s1) t).map (·.Label) = some s1 ∧
    (alookup (attachLabel (attachLabel m t s1) t s2) t).map (·.Label) =
      some s2 :=
  ⟨alookup_attachLabel_self m t s1,
   alookup_attachLabel_self (attachLabel m t s1) t s2⟩

/-- C5: for a non-prefix byte `b` that is a key of the extension table but
whose following ModR/M reg field has no installed record, the sweep
iteration stores a `db <hex b>` pseudo-instruction at the current offset
with literal exactly `[b]`, consumes exactly one byte (the speculatively
read ModR/M byte stays at the buffer head), and the next iteration
restarts at that ModR/M byte. -/
theorem C5_ext_miss_db (b mb : Nat) (rest : List Nat) (offset : Int)
    (m : InstrMap) (dr : Nat) {sub : OpMap}
    (hpre : Prefixes b = none)
    (hsub : alookup OpCodesExt b = some sub)
    (hmiss : alookup sub ((mb >>> 3) &&& 7) = none)
    (hempty : ((alookup m offset).getD {}).Literal = []) :
    sweepStep (b :: mb :: rest) offset m dr =
      .cont (mb :: rest) (offset + 1)
        (ainsert m offset
          { (alookup m offset).getD {} with
              Offset := offset
              Mnemonic := "db " ++ hex2 b
              Literal := [b] }) dr := by
  have hreg : (ParseModRM mb).Reg = (mb >>> 3) &&& 7 := rfl
  have hgn : GetNext (b :: mb :: rest) =
      (⟨none, none, b, some (.db ("db " ++ hex2 b))⟩, mb :: rest) := by
    unfold GetNext GetExtendedOpcode
    simp only [hpre, hsub, hreg, hmiss]
    simp
  unfold sweepStep
  rw [hgn]
  simp only [errString, StepRes.cont.injEq, Instruction.mk.injEq, hempty]
  simp [hempty]

/-- C5 (witness): the bad-extension input `D1 C8` (reg = 1 has no record
under 0xD1). -/
theorem C5_ext_miss_db_witness :
    Prefixes 0xD1 = none ∧
    sweepStep [0xD1, 0xC8] 0 [] 0 =
      .cont [0xC8] (0 + 1)
        (ainsert [] 0
          { (alookup ([] : InstrMap) 0).getD {} with
              Offset := 0
              Mnemonic := "db " ++ hex2 0xD1
              Literal := [0xD1] }) 0 :=
  ⟨by decide, C5_ext_miss_db 0xD1 0xC8 [] 0 [] 0 rfl rfl rfl rfl⟩

/-- C6 (counterexample): on the self-targeting jump `EB FE` the decoded
`jmp` has operand string `offset_00000000h` and target 0 (its own offset),
but the stored Instruction at offset 0 carries no label: the labeled
placeholder created during attachment is overwritten when the decoded
instruction itself is stored. -/
theorem C6_self_jump_label_lost :
    (alookup (Parse_Instructions [0xEB, 0xFE]).map 0).map (·.Operands) =
      some "offset_00000000h" ∧
    (alookup (Parse_Instructions [0xEB, 0xFE]).map 0).map (·.Mnemonic) =
      some "jmp" ∧
    (alookup (Parse_Instructions [0xEB, 0xFE]).map 0).map (·.Label) =
      some "" := by decide

/-- C6 (amended): for a successfully decoded `D`-kind instruction the
branch target equals `offset + len(literal) + signed(disp)` and the
operand string is `offset_<target:08x>h`; after the iteration the map
entry at the target carries that string as its label — provided the
target is not the instruction's own offset with no pre-existing entry
there (in that one case the labeled placeholder is overwritten when the
instruction is stored; see the counterexample). -/
theorem C6_branch_label_amended (data : List Nat) (offset : Int)
    (m : InstrMap) (dr : Nat) (op : OpCode) (pre : Option PrefixRec)
    (lit : Nat) (rest : List Nat) (inst2 : Instruction) (e2 : Option GoErr)
    (rest2 : List Nat) (ops : String) (tgt : Int) (serr : Option GoErr)
    (h1 : GetNext data = (⟨some op, pre, lit, none⟩, rest))
    (hD : op.Encoder = .D)
    (h2 : OpEncode op rest
        (startInst ((alookup m offset).getD {}) offset pre lit) =
      ((inst2, e2), rest2))
    (h3 : StringifyOperands .D inst2 = some (ops, tgt, true, serr))
    (hnl : tgt ≠ offset ∨ (alookup m offset).isSome) :
    tgt = offset + inst2.Literal.length +
      (BytesToIntSigned inst2.Displacement).getD 0 ∧
    ops = "offset_" ++ hex8Int tgt ++ "h" ∧
    ∃ m', sweepStep data offset m dr =
        .cont rest2 (offset + inst2.Literal.length) m' dr ∧
      (alookup m' tgt).map (·.Label) = some ops := by
  have hoff : inst2.Offset = offset := by
    have h := OpEncode_Offset op rest
      (startInst ((alookup m offset).getD {}) offset pre lit)
    rw [h2] at h
    simpa [startInst_Offset] using h
  have htgt : tgt = offset + inst2.Literal.length +
      (BytesToIntSigned inst2.Displacement).getD 0 ∧
      ops = "offset_" ++ hex8Int tgt ++ "h" := by
    unfold StringifyOperands at h3
    cases hbs : BytesToIntSigned inst2.Displacement with
    | some v =>
      rw [hbs, hoff] at h3
      simp only [Option.some.injEq, Prod.mk.injEq] at h3
      obtain ⟨hops, htg, -, -⟩ := h3
      subst htg
      exact ⟨by simp [hbs], hops.symm⟩
    | none =>
      rw [hbs, hoff] at h3
      simp only [Option.some.injEq, Prod.mk.injEq] at h3
      obtain ⟨hops, htg, -, -⟩ := h3
      subst htg
      exact ⟨by simp [hbs], hops.symm⟩
  refine ⟨htgt.1, htgt.2, ?_⟩
  unfold sweepStep
  rw [h1]
  simp only [h2, hD, h3]
  by_cases hc : tgt = offset ∧ (alookup m offset).isSome
  · rw [if_pos hc]
    obtain ⟨hoo, _⟩ := hc
    subst hoo
    refine ⟨_, rfl, ?_⟩
    rw [alookup_ainsert_self]
    rfl
  · rw [if_neg hc]
    have hne : tgt ≠ offset := by
      intro hEq
      rcases hnl with h | h
      · exact h hEq
      · exact hc ⟨hEq, h⟩
    refine ⟨_, rfl, ?_⟩
    rw [alookup_ainsert_ne _ _ _ _ hne]
    exact alookup_attachLabel_self m tgt ops

/-- C6 (witness): the short forward jump `EB 02 90` decoded at offset 0
labels offset 4 with `offset_00000004h`. -/
theorem C6_branch_label_amended_witness :
    (4 : Int) = 0 + ([0xEB, 0x02] : List Nat).length +
      (BytesToIntSigned [0x02]).getD 0 ∧
    "offset_00000004h" = "offset_" ++ hex8Int 4 ++ "h" ∧
    ∃ m', sweepStep [0xEB, 0x02, 0x90] 0 [] 0 =
        .cont [0x90] (0 + ([0xEB, 0x02] : List Nat).length) m' 0 ∧
      (alookup m' 4).map (·.Label) = some "offset_00000004h" :=
  C6_branch_label_amended [0xEB, 0x02, 0x90] 0 [] 0
    { Literal := 0xEB, Mnemonic := "jmp", Encoder := .D, DispSize := 1 }
    none 0xEB [0x02, 0x90]
    { Literal := [0xEB, 0x02], Offset := 0, Mnemonic := "jmp", Op := 0xEB,
      Displacement := [0x02], DispSize := 1 }
    none [0x90] "offset_00000004h" 4 none rfl rfl rfl rfl
    (Or.inl (by decide))

/-- C7: `ParseDisplacement` consumes exactly the byte count the addressing
mode dictates (4 for mod=00 rm=5, 0 for mod=00 rm≠5, 1 for mod=01, 4 for
mod=10, 0 for mod=11, `fallback_size` without a ModR/M) and fails with
`UnexpectedEOF` exactly when fewer bytes remain. -/
theorem C7_parse_displacement_consumption (mm : Option ModRm)
    (data : List Nat) (sz : Nat)
    (hmode : ∀ mr, mm = some mr → mr.Mod < 4) :
    (dispNeeded mm sz ≤ data.length →
      ParseDisplacement mm data sz =
        ((data.take (dispNeeded mm sz), none),
          data.drop (dispNeeded mm sz))) ∧
    (data.length < dispNeeded mm sz →
      (ParseDisplacement mm data sz).1.2 = some .ueof) := by
  rcases mm with _ | mr
  · simp only [dispNeeded]
    constructor
    · intro hge
      have hnlt : ¬ data.length < sz := by omega
      simp [ParseDisplacement, hnlt]
    · intro hlt
      simp [ParseDisplacement, hlt]
  · have h4 := hmode mr rfl
    by_cases h0 : mr.Mod = 0
    · by_cases h5 : mr.RM = 5
      · simp only [dispNeeded, h0, h5, reduceIte]
        constructor
        · intro hge
          have hnlt : ¬ data.length < 4 := by omega
          simp [ParseDisplacement, h0, h5, hnlt]
        · intro hlt
          simp [ParseDisplacement, h0, h5, hlt]
      · simp only [dispNeeded, h0, h5, reduceIte]
        constructor
        · intro hge
          simp [ParseDisplacement, h0, h5]
        · intro hlt
          omega
    · by_cases h1 : mr.Mod = 1
      · simp only [dispNeeded, h0, h1, reduceIte]
        constructor
        · intro hge
          cases data with
          | nil => simp at hge
          | cons d rest => simp [ParseDisplacement, h0, h1]
        · intro hlt
          cases data with
          | nil => simp [ParseDisplacement, h0, h1]
          | cons d rest => simp at hlt
      · by_cases h2 : mr.Mod = 2
        · simp only [dispNeeded]
          simp only [h0, h1, h2, reduceIte]
          norm_num
          constructor
          · intro hge
            have hnlt : ¬ data.length < 4 := by omega
            simp [ParseDisplacement, h0, h1, h2, hnlt]
          · intro hlt
            simp [ParseDisplacement, h0, h1, h2, hlt]
        · simp only [dispNeeded, h0, h1, h2, reduceIte]
          constructor
          · intro hge
            have h3 : mr.Mod = 3 := by omega
            simp [ParseDisplacement, h0, h1, h2, h3]
          · intro hlt
            omega

/-- C7 (witness): a mod=01 ModR/M (byte 0x45) consumes exactly one byte of
`[7, 8, 9]`. -/
theorem C7_parse_displacement_consumption_witness :
    (∀ mr, some (ParseModRM 0x45) = some mr → mr.Mod < 4) ∧
    (dispNeeded (some (ParseModRM 0x45)) 0 ≤ ([7, 8, 9] : List Nat).length →
      ParseDisplacement (some (ParseModRM 0x45)) [7, 8, 9] 0 =
        ((([7, 8, 9] : List Nat).take (dispNeeded (some (ParseModRM 0x45)) 0),
          none),
          ([7, 8, 9] : List Nat).drop (dispNeeded (some (ParseModRM 0x45)) 0))) ∧
    (([7, 8, 9] : List Nat).length < dispNeeded (some (ParseModRM 0x45)) 0 →
      (ParseDisplacement (some (ParseModRM 0x45)) [7, 8, 9] 0).1.2 =
        some .ueof) := by
  have hmode : ∀ mr, some (ParseModRM 0x45) = some mr → mr.Mod < 4 := by
    intro mr h
    cases h
    decide
  exact ⟨hmode,
    (C7_parse_displacement_consumption (some (ParseModRM 0x45)) [7, 8, 9] 0
      hmode).1,
    (C7_parse_displacement_consumption (some (ParseModRM 0x45)) [7, 8, 9] 0
      hmode).2⟩

/-- C8 (counterexample): on input `0F 06` the db pseudo-instruction stored
at the prefix offset has the one-byte literal `[00]` (the zero placeholder
`GetNext` returns), not `[0F]` as the claim states. -/
theorem C8_vex_miss_literal_counterexample :
    (alookup (Parse_Instructions [0x0F, 0x06]).map 0).map (·.Literal) =
      some [0x00] ∧
    (alookup (Parse_Instructions [0x0F, 0x06]).map 0).map (·.Literal) ≠
      some [0x0F] ∧
    (alookup (Parse_Instructions [0x0F, 0x06]).map 0).map (·.Mnemonic) =
      some "db 0f" := by decide

/-- C8 (amended): when a `0x0F` prefix is followed by a byte `c` that is
neither in the prefixed table nor `0xAE`, `GetNext` unreads `c` and
returns the error `"db 0f"` with the zero placeholder opcode byte; the
sweep stores the db pseudo-instruction at the prefix byte's offset with
the one-byte literal `[00]` (not `[0F]`) and advances exactly one byte,
leaving the buffer at `c`. -/
theorem C8_vex_miss_db_amended (c : Nat) (rest : List Nat) (offset : Int)
    (m : InstrMap) (dr : Nat)
    (hmiss : alookup OpCodesPrefixed c = none)
    (hae : c ≠ 0xAE)
    (hempty : ((alookup m offset).getD {}).Literal = []) :
    (GetNext (0x0F :: c :: rest)).1.err = some (.db "db 0f") ∧
    (GetNext (0x0F :: c :: rest)).2 = c :: rest ∧
    sweepStep (0x0F :: c :: rest) offset m dr =
      .cont (c :: rest) (offset + 1)
        (ainsert m offset
          { (alookup m offset).getD {} with
              Offset := offset
              Mnemonic := "db 0f"
              Literal := [0x00] }) dr := by
  have hgn : GetNext (0x0F :: c :: rest) =
      (⟨none, some Vex, 0x00, some (.db "db 0f")⟩, c :: rest) := by
    unfold GetNext
    have hp : Prefixes 0x0F = some Vex := rfl
    simp only [hp, hmiss, hae, reduceIte]
    have hv : Vex.Literal = 0x0F := rfl
    simp [hv, hae]
    decide
  refine ⟨by rw [hgn], by rw [hgn], ?_⟩
  unfold sweepStep
  rw [hgn]
  simp only [errString, StepRes.cont.injEq, Instruction.mk.injEq, hempty]
  simp [hempty]

/-- C8 (witness): the amended statement at the concrete input
`0F 06 90`. -/
theorem C8_vex_miss_db_amended_witness :
    alookup OpCodesPrefixed 0x06 = none ∧ (0x06 : Nat) ≠ 0xAE ∧
    (GetNext [0x0F, 0x06, 0x90]).1.err = some (.db "db 0f") ∧
    (GetNext [0x0F, 0x06, 0x90]).2 = [0x06, 0x90] ∧
    sweepStep [0x0F, 0x06, 0x90] 0 [] 0 =
      .cont [0x06, 0x90] (0 + 1)
        (ainsert [] 0
          { (alookup ([] : InstrMap) 0).getD {} with
              Offset := 0
              Mnemonic := "db 0f"
              Literal := [0x00] }) 0 :=
  ⟨by decide, by decide,
   (C8_vex_miss_db_amended 0x06 [0x90] 0 [] 0 rfl (by decide) rfl).1,
   (C8_vex_miss_db_amended 0x06 [0x90] 0 [] 0 rfl (by decide) rfl).2.1,
   (C8_vex_miss_db_amended 0x06 [0x90] 0 [] 0 rfl (by decide) rfl).2.2⟩

end GoDis
